import Mathlib

/-!
Verification of the client-side trend aggregation and filtering engine of the
Spotify Trend Radar dashboard: record normalization, week/day/month bucket
keys, grouping and bucket sorting, filtering, KPI/donut aggregation, source
clustering by URL domain, and export row selection.  JavaScript numbers are
modelled as rationals, JavaScript strings as Lean strings (operated on through
their character lists so that everything evaluates by kernel reduction), and
nullable fields as `Option`.
-/

/-! Section: String helpers (models of the JavaScript string primitives used) -/

/-- Model of `String.prototype.startsWith` on character lists. -/
def listStartsWith : List Char → List Char → Bool
  | _, [] => true
  | [], _ :: _ => false
  | a :: as, b :: bs => decide (a = b) && listStartsWith as bs

/-- Model of `String.prototype.includes` on character lists (`pat` occurs in the list). -/
def listContainsSeq (pat : List Char) : List Char → Bool
  | [] => pat.isEmpty
  | a :: as => listStartsWith (a :: as) pat || listContainsSeq pat as

/-- Model of `String.prototype.startsWith`. -/
def strStartsWith (s pre : String) : Bool := listStartsWith s.data pre.data

/-- Model of `String.prototype.endsWith`. -/
def strEndsWith (s suf : String) : Bool := listStartsWith s.data.reverse suf.data.reverse

/-- Model of `String.prototype.includes`. -/
def jsIncludes (s pat : String) : Bool := listContainsSeq pat.data s.data

/-- Model of `String.prototype.trim` (strip leading/trailing whitespace). -/
def strTrim (s : String) : String :=
  ⟨((s.data.dropWhile Char.isWhitespace).reverse.dropWhile Char.isWhitespace).reverse⟩

/-- Model of `String.prototype.slice(0, n)`. -/
def strTake (n : Nat) (s : String) : String := ⟨s.data.take n⟩

/-- Model of `String.prototype.toLowerCase` (ASCII range, which is all the
dashboard compares). -/
def toLowerStr (s : String) : String := ⟨s.data.map Char.toLower⟩

/-- Split a character list at every occurrence of `c`
(model of `String.prototype.split` with a one-character separator). -/
def splitOnChar (c : Char) : List Char → List (List Char)
  | [] => [[]]
  | a :: as =>
    match splitOnChar c as with
    | [] => [[]]
    | g :: gs => if a = c then [] :: g :: gs else (a :: g) :: gs

/-- Model of `String.prototype.split` with a one-character separator. -/
def strSplitOn (c : Char) (s : String) : List String :=
  (splitOnChar c s.data).map fun l => ⟨l⟩

/-- Numeric value of the decimal digits of a character list; the empty list
gives 0, matching the `Number(s.replace(/\D/g, "")) || 0` idiom. -/
def digitsVal (cs : List Char) : Nat :=
  (cs.filter Char.isDigit).foldl (fun acc c => acc * 10 + (c.toNat - 48)) 0

/-- Model of `Number(s.replace(/\D/g, "")) || 0`: the numeric value of a label's digits. -/
def labelNum (s : String) : Nat := digitsVal s.data

/-- Three-way code-point comparison of character lists.  This models
`String.prototype.localeCompare` with the `de-DE` locale, with which it agrees
on the label strings compared here (German month names, `KW n` labels and
`D.M.YYYY` day labels, which only mix case at the first letter). -/
def strCmpL : List Char → List Char → Ordering
  | [], [] => .eq
  | [], _ :: _ => .lt
  | _ :: _, [] => .gt
  | a :: as, b :: bs =>
    if a.toNat < b.toNat then .lt
    else if b.toNat < a.toNat then .gt
    else strCmpL as bs

theorem strCmpL_swap (a : List Char) : ∀ b, strCmpL b a = (strCmpL a b).swap := by
  induction a with
  | nil => intro b; cases b <;> rfl
  | cons x xs ih =>
    intro b
    cases b with
    | nil => rfl
    | cons y ys =>
      by_cases h1 : x.toNat < y.toNat
      · have h2 : ¬ y.toNat < x.toNat := by omega
        simp [strCmpL, h1, h2, Ordering.swap]
      · by_cases h2 : y.toNat < x.toNat
        · simp [strCmpL, h1, h2, Ordering.swap]
        · simp [strCmpL, h1, h2, ih]

theorem strCmpL_le_trans : ∀ (a b c : List Char),
    strCmpL a b ≠ .gt → strCmpL b c ≠ .gt → strCmpL a c ≠ .gt := by
  intro a
  induction a with
  | nil =>
    intro b c _ _
    cases c <;> simp [strCmpL]
  | cons x xs ih =>
    intro b c hab hbc
    cases b with
    | nil => simp [strCmpL] at hab
    | cons y ys =>
      cases c with
      | nil => simp [strCmpL] at hbc
      | cons z zs =>
        by_cases hxy : x.toNat < y.toNat
        · -- a < b strictly at the head
          by_cases hyz : y.toNat < z.toNat
          · have : x.toNat < z.toNat := by omega
            simp [strCmpL, this]
          · by_cases hzy : z.toNat < y.toNat
            · simp [strCmpL, hyz, hzy] at hbc
            · have hyz' : y.toNat = z.toNat := by omega
              have : x.toNat < z.toNat := by omega
              simp [strCmpL, this]
        · by_cases hyx : y.toNat < x.toNat
          · simp [strCmpL, hxy, hyx] at hab
          · have hxy' : x.toNat = y.toNat := by omega
            by_cases hyz : y.toNat < z.toNat
            · have : x.toNat < z.toNat := by omega
              simp [strCmpL, this]
            · by_cases hzy : z.toNat < y.toNat
              · simp [strCmpL, hyz, hzy] at hbc
              · have h1 : ¬ x.toNat < z.toNat := by omega
                have h2 : ¬ z.toNat < x.toNat := by omega
                simp [strCmpL, hxy, hyx] at hab
                simp [strCmpL, hyz, hzy] at hbc
                simp [strCmpL, h1, h2]
                exact ih ys zs hab hbc

theorem strCmpL_le_total (a b : List Char) :
    strCmpL a b ≠ .gt ∨ strCmpL b a ≠ .gt := by
  by_cases h : strCmpL a b = .gt
  · right
    rw [strCmpL_swap, h]
    simp [Ordering.swap]
  · left; exact h

/-! Section: Calendar model

`published_date` strings are parsed by the JavaScript `Date` constructor; the
dashboard stores ISO `YYYY-MM-DD` date strings, which parse to a UTC calendar
date.  The model represents such a date by its civil year/month/day and uses
the standard civil-day conversion for the epoch-day arithmetic performed by
`Date.UTC` / `getUTCDay` / `setUTCDate`. -/

structure CalDate where
  year : Int
  month : Nat
  day : Nat
deriving DecidableEq, Repr

/-- Gregorian leap year. -/
def isLeap (y : Nat) : Bool := (y % 4 = 0 && y % 100 ≠ 0) || y % 400 = 0

def daysInMonth (y : Nat) (m : Nat) : Nat :=
  if m = 2 then (if isLeap y then 29 else 28)
  else if m = 4 || m = 6 || m = 9 || m = 11 then 30
  else 31

/-- Parse an ISO `YYYY-MM-DD` date string; returns `none` for anything that
the `Date` constructor would reject as invalid (models `new Date(iso)`
restricted to the date-only strings this dashboard stores). -/
def parseISODate (s : String) : Option CalDate :=
  match s.data with
  | [y1, y2, y3, y4, h1, m1, m2, h2, d1, d2] =>
    if y1.isDigit && y2.isDigit && y3.isDigit && y4.isDigit && decide (h1 = '-') &&
        m1.isDigit && m2.isDigit && decide (h2 = '-') && d1.isDigit && d2.isDigit then
      let y := ((y1.toNat - 48) * 10 + (y2.toNat - 48)) * 100 +
        ((y3.toNat - 48) * 10 + (y4.toNat - 48))
      let m := (m1.toNat - 48) * 10 + (m2.toNat - 48)
      let d := (d1.toNat - 48) * 10 + (d2.toNat - 48)
      if 1 ≤ m && m ≤ 12 && 1 ≤ d && d ≤ daysInMonth y m then
        some ⟨(y : Int), m, d⟩
      else none
    else none
  | _ => none

/-- Model of `safeDate`: `null`/empty strings and unparsable strings give `null`. -/
def safeDate (iso : Option String) : Option CalDate :=
  match iso with
  | none => none
  | some s => if s = "" then none else parseISODate s

/-- Days since 1970-01-01 of a civil date (proleptic Gregorian calendar, the
arithmetic behind `Date.UTC`).  Lean's `Int` division floors for positive
divisors, which is exactly what the era computation needs. -/
def epochDay (c : CalDate) : Int :=
  let y : Int := if (c.month : Int) ≤ 2 then c.year - 1 else c.year
  let era : Int := y / 400
  let yoe : Int := y - era * 400
  let mp : Int := ((c.month : Int) + 9) % 12
  let doy : Int := (153 * mp + 2) / 5 + (c.day : Int) - 1
  let doe : Int := yoe * 365 + yoe / 4 - yoe / 100 + doy
  era * 146097 + doe - 719468

/-- The civil year containing a given epoch day (used for `getUTCFullYear`
after the Thursday shift). -/
def yearOfEpochDay (z : Int) : Int :=
  let z' := z + 719468
  let era := z' / 146097
  let doe := z' - era * 146097
  let yoe := (doe - doe / 1460 + doe / 36524 - doe / 146096) / 365
  let y := yoe + era * 400
  let doy := doe - (365 * yoe + yoe / 4 - yoe / 100)
  let mp := (5 * doy + 2) / 153
  let m := mp + (if mp < 10 then 3 else -9)
  if m ≤ 2 then y + 1 else y

/-- Model of `Date.prototype.getUTCDay`: 0 = Sunday … 6 = Saturday
(1970-01-01 was a Thursday). -/
def jsGetUTCDay (z : Int) : Int := (z + 4) % 7

/-- Model of `getISOWeek`: shift the date to the Thursday of its week (Sunday counting
as weekday 7), then `Math.ceil(((d - yearStart) / 86400000 + 1) / 7)`; with a
non-negative whole-day difference the ceiling equals `diff / 7 + 1`. -/
def getISOWeek (c : CalDate) : Int :=
  let n := epochDay c
  let dow := jsGetUTCDay n
  let isoDow := if dow = 0 then 7 else dow
  let n2 := n + 4 - isoDow
  let yearStart := epochDay ⟨yearOfEpochDay n2, 1, 1⟩
  (n2 - yearStart) / 7 + 1

/-- Two-digit zero padding (`String(n).padStart(2, "0")`). -/
def pad2 (n : Nat) : String := if n < 10 then "0" ++ toString n else toString n

/-- Model of `isoDayKey`, the canonical day key `y-m-d` with zero-padded month and day. -/
def isoDayKey (c : CalDate) : String :=
  toString c.year ++ "-" ++ pad2 c.month ++ "-" ++ pad2 c.day

/-- Model of `monthKey`, the canonical month key `y-m` with zero-padded month. -/
def monthKey (c : CalDate) : String := toString c.year ++ "-" ++ pad2 c.month

/-- German month names, as produced by
`toLocaleDateString("de-DE", { month: "long" })`. -/
def germanMonthLong (m : Nat) : String :=
  match m with
  | 1 => "Januar"
  | 2 => "Februar"
  | 3 => "März"
  | 4 => "April"
  | 5 => "Mai"
  | 6 => "Juni"
  | 7 => "Juli"
  | 8 => "August"
  | 9 => "September"
  | 10 => "Oktober"
  | 11 => "November"
  | 12 => "Dezember"
  | _ => ""

/-- Model of `toLocaleDateString("de-DE")`: `D.M.YYYY` without zero padding. -/
def formatDayDE (c : CalDate) : String :=
  toString c.day ++ "." ++ toString c.month ++ "." ++ toString c.year

/-! Section: Data model -/

/-- A trend record as fetched from the backend (all content fields nullable). -/
structure Trend where
  id : Nat
  topic : Option String := none
  category : Option String := none
  relevance_score : Option ℚ := none
  summary : Option String := none
  spotify_impact : Option String := none
  url : Option String := none
  published_date : Option String := none
  week_number : Option Int := none
  newsletter_source : Option String := none
deriving DecidableEq, Repr

/-- Grouping mode for the time buckets. -/
inductive GroupBy where
  | week
  | day
  | month
deriving DecidableEq, Repr

/-- Export scope selection. -/
inductive ExportScope where
  | all
  | month
  | week
deriving DecidableEq, Repr

/-- Model of `clamp01`: `Math.max(0, Math.min(1, n))`. -/
def clamp01 (n : ℚ) : ℚ := max 0 (min 1 n)

/-- Model of `Boolean((s ?? "").trim())`: the optional string has a non-whitespace
character. -/
def hasContent (s : Option String) : Bool :=
  (s.getD "").data.any fun c => !c.isWhitespace

/-! Section: Record Normalizer -/

/-- The map step of `normalizedTrends`:
`{ ...t, week_number: t.week_number ?? (d ? getISOWeek(d) : null) }`. -/
def fillWeek (t : Trend) : Trend :=
  { t with
    week_number :=
      match t.week_number with
      | some w => some w
      | none => (safeDate t.published_date).map getISOWeek }

/-- The keep predicate of `normalizedTrends`: some field carries usable
content (`hasTopic || hasSummary || … || hasWeek`). -/
def hasAnySignal (t : Trend) : Bool :=
  hasContent t.topic || hasContent t.summary || hasContent t.spotify_impact ||
  hasContent t.url || t.relevance_score.isSome || hasContent t.category ||
  hasContent t.published_date ||
  (match t.week_number with
   | some w => decide (0 < w)
   | none => false)

/-- Model of `normalizedTrends`: derive missing week numbers, then drop records with no
usable content. -/
def normalizedTrends (trends : List Trend) : List Trend :=
  (trends.map fillWeek).filter hasAnySignal

/-! Section: Bucket keys and labels -/

/-- Model of `slotKeyForTrend`: the bucket key of a record under a grouping mode.  Note
the JavaScript truthiness test `t.week_number ?`, under which week number 0 is
treated like a missing week but any other (also negative) week number is
kept. -/
def slotKeyForTrend (t : Trend) (g : GroupBy) : String :=
  match g with
  | .week =>
    match t.week_number with
    | some w => if w = 0 then "week:unknown" else "week:" ++ toString w
    | none => "week:unknown"
  | .day =>
    match safeDate t.published_date with
    | some d => "day:" ++ isoDayKey d
    | none => "day:unknown"
  | .month =>
    match safeDate t.published_date with
    | some d => "month:" ++ monthKey d
    | none => "month:unknown"

/-- Model of `slotLabelFromKey`: the human label of a bucket key (German locale). -/
def slotLabelFromKey (key : String) (g : GroupBy) : String :=
  if strEndsWith key ":unknown" then
    match g with
    | .week => "Ohne KW"
    | .day => "Ohne Datum"
    | .month => "Ohne Monat"
  else
    let raw := (strSplitOn ':' key).getD 1 ""
    match g with
    | .week => "KW " ++ raw
    | .day =>
      match safeDate (some raw) with
      | some d => formatDayDE d
      | none => raw
    | .month =>
      let parts := strSplitOn '-' raw
      let ys := parts.getD 0 ""
      let ms := parts.getD 1 ""
      germanMonthLong (digitsVal ms.data) ++ " " ++ ys

/-- The label a record is grouped under. -/
def labelOfTrend (t : Trend) (g : GroupBy) : String :=
  slotLabelFromKey (slotKeyForTrend t g) g

/-! Section: Filter Engine (richest variant, with free-text search; the variants
without a search box are the special case of a blank query) -/

structure FilterParams where
  groupBy : GroupBy
  selectedSlot : String
  selectedCategory : String
  minScore : ℚ
  searchQuery : String

/-- The search predicate: lower-cased substring match on topic, summary and
category. -/
def searchHit (t : Trend) (q : String) : Bool :=
  jsIncludes (toLowerStr (t.topic.getD "")) q ||
  jsIncludes (toLowerStr (t.summary.getD "")) q ||
  jsIncludes (toLowerStr (t.category.getD "")) q

/-- The filter predicate applied to each normalized record (conjunction of
score floor, category equality, bucket-key equality and search), with
`min = clamp01 minScore` and `q = searchQuery.toLowerCase().trim()` as in the
source. -/
def keepTrend (p : FilterParams) (t : Trend) : Bool :=
  decide (clamp01 p.minScore ≤ t.relevance_score.getD 0) &&
  (decide (p.selectedCategory = "all") ||
    decide (strTrim (t.category.getD "") = p.selectedCategory)) &&
  (decide (p.selectedSlot = "all") ||
    decide (slotKeyForTrend t p.groupBy = p.selectedSlot)) &&
  (decide (strTrim (toLowerStr p.searchQuery) = "") ||
    searchHit t (strTrim (toLowerStr p.searchQuery)))

/-- Model of `filtered`: the Filter Engine. -/
def filteredTrends (normalized : List Trend) (p : FilterParams) : List Trend :=
  normalized.filter (keepTrend p)

/-! Section: Grouping (JavaScript `Map` insertion-order grouping, then a label
sort) -/

/-- Append `x` to the entry of key `k`, or append a fresh entry at the end:
the behaviour of `map.get(label)!.push(t)` on a JavaScript `Map`. -/
def pushEntry {α : Type} (k : String) (x : α) :
    List (String × List α) → List (String × List α)
  | [] => [(k, [x])]
  | (k', xs) :: rest =>
    if k' = k then (k', xs ++ [x]) :: rest else (k', xs) :: pushEntry k x rest

/-- Group a list by a string key, keys in first-occurrence order, members in
list order (a JavaScript `Map` of arrays built by pushing). -/
def groupByKey {α : Type} (f : α → String) (l : List α) :
    List (String × List α) :=
  l.foldl (fun m x => pushEntry (f x) x m) []

/-- The integer sign of a three-way comparison (the sign of the number a
comparator returns). -/
def ordSign (o : Ordering) : Int :=
  match o with
  | .lt => -1
  | .eq => 0
  | .gt => 1

/-- When neither label is the unknown label: week mode compares the numeric
value of the label digits descending (`Number(b.replace(/\D/g,"")) || 0`
minus the same for `a`), other modes compare labels by descending
`localeCompare`. -/
def baseCmp (g : GroupBy) (a b : String) : Int :=
  match g with
  | .week => (labelNum b : Int) - (labelNum a : Int)
  | _ => ordSign (strCmpL b.data a.data)

/-- The label comparator of `grouped` as an integer, mirroring the JavaScript
comparator: unknown (`Ohne…`) labels last; week labels by descending numeric
value of their digits; other labels by descending `localeCompare`. -/
def groupedCmp (g : GroupBy) (a b : String) : Int :=
  if strStartsWith a "Ohne" && !strStartsWith b "Ohne" then 1
  else if !strStartsWith a "Ohne" && strStartsWith b "Ohne" then -1
  else baseCmp g a b

/-- The sort relation induced by the comparator on labelled buckets. -/
def groupedPairRel (g : GroupBy) (a b : String × List Trend) : Prop :=
  groupedCmp g a.1 b.1 ≤ 0

instance (g : GroupBy) : DecidableRel (groupedPairRel g) := fun a b =>
  inferInstanceAs (Decidable (groupedCmp g a.1 b.1 ≤ 0))

/-- Model of `grouped`: partition the filtered records by label, then sort the buckets
with the label comparator (a stable sort, as JavaScript guarantees). -/
def grouped (g : GroupBy) (filtered : List Trend) :
    List (String × List Trend) :=
  List.insertionSort (groupedPairRel g)
    (groupByKey (fun t => labelOfTrend t g) filtered)

/-! Section: KPI / donut aggregation -/

/-- Count of records with `(relevance_score ?? 0) >= 0.8`. -/
def distHigh (filtered : List Trend) : Nat :=
  (filtered.filter fun t => decide (mkRat 8 10 ≤ t.relevance_score.getD 0)).length

/-- Count of records with score in `[0.6, 0.8)`. -/
def distMid (filtered : List Trend) : Nat :=
  (filtered.filter fun t =>
    decide (mkRat 6 10 ≤ t.relevance_score.getD 0) &&
    decide (t.relevance_score.getD 0 < mkRat 8 10)).length

/-- Count of records with score below `0.6`. -/
def distLow (filtered : List Trend) : Nat :=
  (filtered.filter fun t => decide (t.relevance_score.getD 0 < mkRat 6 10)).length

/-- The banded total shown at the centre of the donut. -/
def donutTotal (filtered : List Trend) : Nat :=
  distHigh filtered + distMid filtered + distLow filtered

/-- The `Math.max(1, …)` denominator of the donut proportions. -/
def donutDenom (filtered : List Trend) : ℚ := max 1 (donutTotal filtered : ℚ)

/-- High band share of the donut, in percent. -/
def highPct (filtered : List Trend) : ℚ :=
  (distHigh filtered : ℚ) / donutDenom filtered * 100

/-- Mid band share of the donut, in percent. -/
def midPct (filtered : List Trend) : ℚ :=
  (distMid filtered : ℚ) / donutDenom filtered * 100

/-- Low band share of the donut, in percent. -/
def lowPct (filtered : List Trend) : ℚ :=
  (distLow filtered : ℚ) / donutDenom filtered * 100

/-! Section: Source clustering -/

/-- Success and hostname of the WHATWG `URL` constructor, for absolute URLs of
the common `scheme://[userinfo@]host[:port][/path]` shape; strings without a
scheme separator make the constructor throw, modelled as `none`. -/
def parseURLHostname (url : String) : Option String :=
  match strSplitOn ':' url |>.head? with
  | none => none
  | some scheme =>
    if scheme = "" || !(scheme.data.all Char.isAlpha) then none
    else
      let after := ⟨url.data.drop (scheme.data.length + 1)⟩
      if !strStartsWith after "//" then none
      else
        let rest : String := ⟨after.data.drop 2⟩
        let authority : String :=
          ⟨rest.data.takeWhile fun c => decide (c ≠ '/') && decide (c ≠ '?') && decide (c ≠ '#')⟩
        let hostport := (strSplitOn '@' authority).getLast?.getD authority
        let host : String := ⟨hostport.data.takeWhile fun c => decide (c ≠ ':')⟩
        if host = "" then none else some (toLowerStr host)

/-- Strip a leading `www.` (`hostname.replace(/^www\./, "")`). -/
def stripWWW (host : String) : String :=
  if strStartsWith host "www." then ⟨host.data.drop 4⟩ else host

/-- Model of `extractDomain`: hostname without `www.`, or on a constructor throw the
first 40 characters of the URL (falling back to `Unbekannte Quelle` when that
slice is empty). -/
def extractDomain (url : String) : String :=
  match parseURLHostname url with
  | some host => stripWWW host
  | none =>
    let s := strTake 40 url
    if s = "" then "Unbekannte Quelle" else s

/-- The source-cluster key of a record: blank URLs go to `Unbekannte Quelle`,
other URLs through `extractDomain`. -/
def domainOfTrend (t : Trend) : String :=
  if strTrim (t.url.getD "") = "" then "Unbekannte Quelle"
  else extractDomain (strTrim (t.url.getD ""))

/-- The sort relation on source clusters: descending member count. -/
def sourceRel (a b : String × List Trend) : Prop := b.2.length ≤ a.2.length

instance : DecidableRel sourceRel := fun a b =>
  inferInstanceAs (Decidable (b.2.length ≤ a.2.length))

/-- Model of `bySource`: cluster a bucket's records by origin domain and order the
clusters by descending member count. -/
def bySource (items : List Trend) : List (String × List Trend) :=
  List.insertionSort sourceRel (groupByKey domainOfTrend items)

/-! Section: Export Row Selector -/

/-- Model of `String(t.week_number ?? "")`. -/
def jsWeekStr (w : Option Int) : String :=
  match w with
  | some n => toString n
  | none => ""

/-- Model of `exportData`: select export rows from the full normalized set by month
key or week number, depending on the export scope. -/
def exportData (rows : List Trend) (scope : ExportScope)
    (exportMonth exportWeek : String) : List Trend :=
  let rows1 :=
    if scope = .month ∧ exportMonth ≠ "all" then
      rows.filter fun t =>
        match safeDate t.published_date with
        | some d => decide (monthKey d = exportMonth)
        | none => false
    else rows
  if scope = .week ∧ exportWeek ≠ "all" then
    rows1.filter fun t => decide (jsWeekStr t.week_number = exportWeek)
  else rows1

/-! Section: Grouping infrastructure lemmas -/

theorem pushEntry_keys {α : Type} (k : String) (x : α)
    (m : List (String × List α)) :
    (pushEntry k x m).map Prod.fst =
      if k ∈ m.map Prod.fst then m.map Prod.fst
      else m.map Prod.fst ++ [k] := by
  induction m with
  | nil => simp [pushEntry]
  | cons e rest ih =>
    obtain ⟨k', xs⟩ := e
    by_cases hk : k' = k
    · subst hk
      simp [pushEntry]
    · have hstep : (pushEntry k x ((k', xs) :: rest)).map Prod.fst
          = k' :: (pushEntry k x rest).map Prod.fst := by
        simp [pushEntry, hk]
      rw [hstep, ih]
      by_cases hmem : k ∈ rest.map Prod.fst
      · simp [hmem, Ne.symm hk]
      · simp [hmem, Ne.symm hk]

theorem pushEntry_spec {α : Type} (f : α → String) (k : String) (x : α)
    (src : List α) (hfx : f x = k) :
    ∀ (m : List (String × List α)),
      (∀ e ∈ m, e.2 = src.filter fun y => decide (f y = e.1)) →
      (k ∉ m.map Prod.fst → (src.filter fun y => decide (f y = k)) = []) →
      (m.map Prod.fst).Nodup →
      ∀ e ∈ pushEntry k x m,
        e.2 = (src ++ [x]).filter fun y => decide (f y = e.1) := by
  intro m
  induction m with
  | nil =>
    intro _ hfresh _ e he
    have hpe : pushEntry k x ([] : List (String × List α)) = [(k, [x])] := rfl
    rw [hpe, List.mem_singleton] at he
    subst he
    simp [List.filter_append, hfresh (by simp), hfx]
  | cons hd rest ih =>
    obtain ⟨k', xs⟩ := hd
    intro hent hfresh hnd e he
    have hpe : pushEntry k x ((k', xs) :: rest) =
        if k' = k then (k', xs ++ [x]) :: rest
        else (k', xs) :: pushEntry k x rest := rfl
    by_cases hk : k' = k
    · rw [hpe, if_pos hk, List.mem_cons] at he
      rcases he with he1 | he1
      · subst he1
        have h1 := hent (k', xs) (by simp)
        simp only at h1
        simp [h1, List.filter_append, hfx, hk]
      · have h1 := hent e (List.mem_cons_of_mem _ he1)
        have hne : ¬ (k' = e.1) := by
          intro hcontra
          have hmem : e.1 ∈ rest.map Prod.fst := List.mem_map_of_mem Prod.fst he1
          exact (List.nodup_cons.mp hnd).1 (hcontra ▸ hmem)
        have hne2 : ¬ (k = e.1) := hk ▸ hne
        simp [h1, List.filter_append, hfx, hne2]
    · rw [hpe, if_neg hk, List.mem_cons] at he
      rcases he with he1 | he1
      · subst he1
        have h1 := hent (k', xs) (by simp)
        simp only at h1
        have hne : ¬ (k = k') := fun h => hk h.symm
        simp [h1, List.filter_append, hfx, hne]
      · refine ih (fun e' he' => hent e' (List.mem_cons_of_mem _ he')) ?_
          (List.nodup_cons.mp hnd).2 e he1
        intro hnotk
        apply hfresh
        simp only [List.map_cons, List.mem_cons, not_or]
        exact ⟨fun h => hk h.symm, hnotk⟩

theorem groupByKey_invariant {α : Type} (f : α → String) :
    ∀ (l src : List α) (m : List (String × List α)),
      (m.map Prod.fst).Nodup →
      (∀ e ∈ m, e.2 = src.filter fun y => decide (f y = e.1)) →
      (∀ y ∈ src, f y ∈ m.map Prod.fst) →
      ((l.foldl (fun m x => pushEntry (f x) x m) m).map Prod.fst).Nodup ∧
      (∀ e ∈ l.foldl (fun m x => pushEntry (f x) x m) m,
        e.2 = (src ++ l).filter fun y => decide (f y = e.1)) ∧
      (∀ y ∈ src ++ l,
        f y ∈ (l.foldl (fun m x => pushEntry (f x) x m) m).map Prod.fst) := by
  intro l
  induction l with
  | nil =>
    intro src m h1 h2 h3
    simp only [List.foldl_nil, List.append_nil]
    exact ⟨h1, h2, h3⟩
  | cons x xs ih =>
    intro src m h1 h2 h3
    have hstep_nodup : ((pushEntry (f x) x m).map Prod.fst).Nodup := by
      rw [pushEntry_keys]
      split
      · exact h1
      · rename_i hnot
        simp [List.nodup_append, h1, hnot]
    have hfresh : f x ∉ m.map Prod.fst →
        (src.filter fun y => decide (f y = f x)) = [] := by
      intro h
      rw [List.filter_eq_nil_iff]
      intro y hy
      simp only [decide_eq_true_eq]
      intro hEq
      exact h (hEq ▸ h3 y hy)
    have hstep_ent := pushEntry_spec f (f x) x src rfl m h2 hfresh h1
    have hstep_cov : ∀ y ∈ src ++ [x],
        f y ∈ (pushEntry (f x) x m).map Prod.fst := by
      intro y hy
      rw [pushEntry_keys]
      rcases List.mem_append.mp hy with hy | hy
      · have hmem := h3 y hy
        by_cases hc : f x ∈ m.map Prod.fst
        · rw [if_pos hc]; exact hmem
        · rw [if_neg hc]; exact List.mem_append_left _ hmem
      · rw [List.mem_singleton] at hy
        subst hy
        by_cases hc : f y ∈ m.map Prod.fst
        · rw [if_pos hc]; exact hc
        · rw [if_neg hc]; exact List.mem_append_right _ (by simp)
    have hmain := ih (src ++ [x]) (pushEntry (f x) x m) hstep_nodup hstep_ent hstep_cov
    simpa [List.foldl_cons, List.append_assoc] using hmain

theorem groupByKey_nodupKeys {α : Type} (f : α → String) (l : List α) :
    ((groupByKey f l).map Prod.fst).Nodup :=
  (groupByKey_invariant f l [] [] (by simp) (by simp) (by simp)).1

theorem groupByKey_entries {α : Type} (f : α → String) (l : List α) :
    ∀ e ∈ groupByKey f l, e.2 = l.filter fun y => decide (f y = e.1) := by
  have h := (groupByKey_invariant f l [] [] (by simp) (by simp) (by simp)).2.1
  simpa using h

theorem groupByKey_covers {α : Type} (f : α → String) (l : List α) :
    ∀ y ∈ l, f y ∈ (groupByKey f l).map Prod.fst := by
  have h := (groupByKey_invariant f l [] [] (by simp) (by simp) (by simp)).2.2
  simpa using h

theorem flatten_filter_perm {α : Type} (f : α → String) :
    ∀ (keys : List String) (l : List α),
      keys.Nodup → (∀ x ∈ l, f x ∈ keys) →
      ((keys.map fun k => l.filter fun y => decide (f y = k)).flatten).Perm l := by
  intro keys
  induction keys with
  | nil =>
    intro l _ hcov
    have hl : l = [] := by
      rw [List.eq_nil_iff_forall_not_mem]
      intro a ha
      exact absurd (hcov a ha) (by simp)
    simp [hl]
  | cons k ks ih =>
    intro l hnd hcov
    simp only [List.map_cons, List.flatten_cons]
    have hperm := List.filter_append_perm (fun y => decide (f y = k)) l
    have hl' : ∀ x ∈ l.filter fun y => !decide (f y = k), f x ∈ ks := by
      intro x hx
      rw [List.mem_filter] at hx
      have h1 := hcov x hx.1
      have h2 : ¬ f x = k := by simpa using hx.2
      simpa [h2] using h1
    have hihs := ih (l.filter fun y => !decide (f y = k)) (List.nodup_cons.mp hnd).2 hl'
    have hmap : (ks.map fun k' => l.filter fun y => decide (f y = k')) =
        ks.map fun k' =>
          (l.filter fun y => !decide (f y = k)).filter fun y => decide (f y = k') := by
      apply List.map_congr_left
      intro k' hk'
      have hkk : k' ≠ k := by
        intro h
        subst h
        exact (List.nodup_cons.mp hnd).1 hk'
      rw [List.filter_filter]
      apply List.filter_congr
      intro y _
      by_cases h : f y = k'
      · simp [h, hkk]
      · simp [h]
    rw [hmap]
    exact (List.Perm.append_left _ hihs).trans hperm

/-! Section: Comparator order facts -/

theorem ordSign_le_iff (o : Ordering) : ordSign o ≤ 0 ↔ o ≠ .gt := by
  cases o <;> simp [ordSign]

theorem baseCmp_le_trans (g : GroupBy) (a b c : String)
    (hab : baseCmp g a b ≤ 0) (hbc : baseCmp g b c ≤ 0) :
    baseCmp g a c ≤ 0 := by
  cases g with
  | week =>
    simp only [baseCmp] at hab hbc ⊢
    omega
  | day =>
    simp only [baseCmp, ordSign_le_iff] at hab hbc ⊢
    exact strCmpL_le_trans c.data b.data a.data hbc hab
  | month =>
    simp only [baseCmp, ordSign_le_iff] at hab hbc ⊢
    exact strCmpL_le_trans c.data b.data a.data hbc hab

theorem baseCmp_le_total (g : GroupBy) (a b : String) :
    baseCmp g a b ≤ 0 ∨ baseCmp g b a ≤ 0 := by
  cases g with
  | week =>
    simp only [baseCmp]
    omega
  | day =>
    simp only [baseCmp, ordSign_le_iff]
    exact strCmpL_le_total b.data a.data
  | month =>
    simp only [baseCmp, ordSign_le_iff]
    exact strCmpL_le_total b.data a.data

theorem groupedCmp_unk_unk {a b : String} (g : GroupBy)
    (hA : strStartsWith a "Ohne" = true) (hB : strStartsWith b "Ohne" = true) :
    groupedCmp g a b = baseCmp g a b := by
  simp [groupedCmp, hA, hB]

theorem groupedCmp_unk_known {a b : String} (g : GroupBy)
    (hA : strStartsWith a "Ohne" = true) (hB : strStartsWith b "Ohne" = false) :
    groupedCmp g a b = 1 := by
  simp [groupedCmp, hA, hB]

theorem groupedCmp_known_unk {a b : String} (g : GroupBy)
    (hA : strStartsWith a "Ohne" = false) (hB : strStartsWith b "Ohne" = true) :
    groupedCmp g a b = -1 := by
  simp [groupedCmp, hA, hB]

theorem groupedCmp_known_known {a b : String} (g : GroupBy)
    (hA : strStartsWith a "Ohne" = false) (hB : strStartsWith b "Ohne" = false) :
    groupedCmp g a b = baseCmp g a b := by
  simp [groupedCmp, hA, hB]

theorem groupedLe_trans (g : GroupBy) (a b c : String)
    (hab : groupedCmp g a b ≤ 0) (hbc : groupedCmp g b c ≤ 0) :
    groupedCmp g a c ≤ 0 := by
  cases uA : strStartsWith a "Ohne" with
  | false =>
    cases uB : strStartsWith b "Ohne" with
    | false =>
      cases uC : strStartsWith c "Ohne" with
      | false =>
        rw [groupedCmp_known_known g uA uB] at hab
        rw [groupedCmp_known_known g uB uC] at hbc
        rw [groupedCmp_known_known g uA uC]
        exact baseCmp_le_trans g a b c hab hbc
      | true =>
        rw [groupedCmp_known_unk g uA uC]
        omega
    | true =>
      cases uC : strStartsWith c "Ohne" with
      | false =>
        rw [groupedCmp_unk_known g uB uC] at hbc
        omega
      | true =>
        rw [groupedCmp_known_unk g uA uC]
        omega
  | true =>
    cases uB : strStartsWith b "Ohne" with
    | false =>
      rw [groupedCmp_unk_known g uA uB] at hab
      omega
    | true =>
      cases uC : strStartsWith c "Ohne" with
      | false =>
        rw [groupedCmp_unk_known g uB uC] at hbc
        omega
      | true =>
        rw [groupedCmp_unk_unk g uA uB] at hab
        rw [groupedCmp_unk_unk g uB uC] at hbc
        rw [groupedCmp_unk_unk g uA uC]
        exact baseCmp_le_trans g a b c hab hbc

theorem groupedLe_total (g : GroupBy) (a b : String) :
    groupedCmp g a b ≤ 0 ∨ groupedCmp g b a ≤ 0 := by
  cases uA : strStartsWith a "Ohne" with
  | false =>
    cases uB : strStartsWith b "Ohne" with
    | false =>
      rw [groupedCmp_known_known g uA uB, groupedCmp_known_known g uB uA]
      exact baseCmp_le_total g a b
    | true =>
      left
      rw [groupedCmp_known_unk g uA uB]
      omega
  | true =>
    cases uB : strStartsWith b "Ohne" with
    | false =>
      right
      rw [groupedCmp_known_unk g uB uA]
      omega
    | true =>
      rw [groupedCmp_unk_unk g uA uB, groupedCmp_unk_unk g uB uA]
      exact baseCmp_le_total g a b

instance (g : GroupBy) : IsTrans (String × List Trend) (groupedPairRel g) :=
  ⟨fun a b c hab hbc => groupedLe_trans g a.1 b.1 c.1 hab hbc⟩

instance (g : GroupBy) : IsTotal (String × List Trend) (groupedPairRel g) :=
  ⟨fun a b => groupedLe_total g a.1 b.1⟩

instance : IsTrans (String × List Trend) sourceRel :=
  ⟨fun _ _ _ hab hbc => hbc.trans hab⟩

instance : IsTotal (String × List Trend) sourceRel :=
  ⟨fun a b => Nat.le_total b.2.length a.2.length⟩

/-! Section: Derived facts about the grouping engines -/

theorem grouped_perm_groupByKey (g : GroupBy) (fl : List Trend) :
    (grouped g fl).Perm (groupByKey (fun t => labelOfTrend t g) fl) :=
  List.perm_insertionSort _ _

theorem grouped_entries (g : GroupBy) (fl : List Trend) :
    ∀ e ∈ grouped g fl,
      e.2 = fl.filter fun t => decide (labelOfTrend t g = e.1) := by
  intro e he
  exact groupByKey_entries _ fl e ((grouped_perm_groupByKey g fl).mem_iff.mp he)

theorem grouped_sorted (g : GroupBy) (fl : List Trend) :
    (grouped g fl).Pairwise (groupedPairRel g) :=
  List.sorted_insertionSort (groupedPairRel g) _

theorem grouped_flatten_perm (g : GroupBy) (fl : List Trend) :
    ((grouped g fl).map Prod.snd).flatten.Perm fl := by
  have h1 : ((grouped g fl).map Prod.snd).flatten.Perm
      ((groupByKey (fun t => labelOfTrend t g) fl).map Prod.snd).flatten :=
    ((grouped_perm_groupByKey g fl).map Prod.snd).flatten
  refine h1.trans ?_
  have h2 : (groupByKey (fun t => labelOfTrend t g) fl).map Prod.snd =
      ((groupByKey (fun t => labelOfTrend t g) fl).map Prod.fst).map
        (fun k => fl.filter fun t => decide (labelOfTrend t g = k)) := by
    rw [List.map_map]
    apply List.map_congr_left
    intro e he
    exact groupByKey_entries _ fl e he
  rw [h2]
  exact flatten_filter_perm _ _ fl (groupByKey_nodupKeys _ fl)
    (groupByKey_covers _ fl)

theorem bySource_perm_groupByKey (items : List Trend) :
    (bySource items).Perm (groupByKey domainOfTrend items) :=
  List.perm_insertionSort _ _

theorem bySource_entries (items : List Trend) :
    ∀ e ∈ bySource items,
      e.2 = items.filter fun t => decide (domainOfTrend t = e.1) := by
  intro e he
  exact groupByKey_entries _ items e
    ((bySource_perm_groupByKey items).mem_iff.mp he)

theorem bySource_sorted (items : List Trend) :
    (bySource items).Pairwise sourceRel :=
  List.sorted_insertionSort sourceRel _

theorem bySource_flatten_perm (items : List Trend) :
    ((bySource items).map Prod.snd).flatten.Perm items := by
  have h1 : ((bySource items).map Prod.snd).flatten.Perm
      ((groupByKey domainOfTrend items).map Prod.snd).flatten :=
    ((bySource_perm_groupByKey items).map Prod.snd).flatten
  refine h1.trans ?_
  have h2 : (groupByKey domainOfTrend items).map Prod.snd =
      ((groupByKey domainOfTrend items).map Prod.fst).map
        (fun k => items.filter fun t => decide (domainOfTrend t = k)) := by
    rw [List.map_map]
    apply List.map_congr_left
    intro e he
    exact groupByKey_entries _ items e he
  rw [h2]
  exact flatten_filter_perm _ _ items (groupByKey_nodupKeys _ items)
    (groupByKey_covers _ items)

/-! Section: Normalizer: claim-side predicates and idempotence -/

/-- A field is blank/absent: every character of the (defaulted) string is
whitespace. -/
def specBlank (s : Option String) : Prop :=
  ∀ c ∈ (s.getD "").data, c.isWhitespace = true

instance : DecidablePred specBlank := fun s =>
  inferInstanceAs (Decidable (∀ c ∈ (s.getD "").data, c.isWhitespace = true))

/-- The week derivation as the claim states it: set `week_number` to the ISO
week of the parsed `published_date` exactly when `week_number` is absent and
the date parses; otherwise leave the record as given. -/
def specFill (t : Trend) : Trend :=
  match t.week_number, safeDate t.published_date with
  | none, some d => { t with week_number := some (getISOWeek d) }
  | _, _ => t

/-- The drop condition as the claim states it: all of topic, summary,
spotify_impact, url, category and published_date blank/absent, AND
relevance_score absent, AND the (derived) week_number not a positive
integer. -/
def specDroppable (t : Trend) : Prop :=
  specBlank t.topic ∧ specBlank t.summary ∧ specBlank t.spotify_impact ∧
  specBlank t.url ∧ specBlank t.category ∧ specBlank t.published_date ∧
  t.relevance_score = none ∧ ¬ ∃ w, t.week_number = some w ∧ 0 < w

instance : DecidablePred specDroppable := fun t => by
  unfold specDroppable
  infer_instance

theorem hasContent_iff (s : Option String) :
    hasContent s = true ↔ ¬ specBlank s := by
  unfold hasContent specBlank
  rw [List.any_eq_true]
  constructor
  · rintro ⟨c, hc, hw⟩ hall
    rw [Bool.not_eq_true'] at hw
    exact absurd (hall c hc) (by simp [hw])
  · intro h
    by_contra hnone
    push_neg at hnone
    apply h
    intro c hc
    have := hnone c hc
    simpa using this

theorem weekPos_iff (w : Option Int) :
    (match w with
      | some v => decide (0 < v)
      | none => false) = true ↔ ∃ v, w = some v ∧ 0 < v := by
  cases w <;> simp

theorem hasAnySignal_iff (t : Trend) :
    hasAnySignal t = true ↔ ¬ specDroppable t := by
  unfold hasAnySignal specDroppable
  simp only [Bool.or_eq_true, hasContent_iff, weekPos_iff,
    Option.isSome_iff_ne_none]
  constructor
  · intro h hdrop
    obtain ⟨b1, b2, b3, b4, b5, b6, hsc, hw⟩ := hdrop
    rcases h with ((((((h | h) | h) | h) | h) | h) | h) | h
    · exact h b1
    · exact h b2
    · exact h b3
    · exact h b4
    · exact h hsc
    · exact h b5
    · exact h b6
    · exact hw h
  · intro h
    by_contra hno
    push_neg at hno
    obtain ⟨⟨⟨⟨⟨⟨⟨n1, n2⟩, n3⟩, n4⟩, n5⟩, n6⟩, n7⟩, n8⟩ := hno
    refine h ⟨n1, n2, n3, n4, n6, n7, n5, ?_⟩
    push_neg
    exact n8

theorem fillWeek_eq_specFill (t : Trend) : fillWeek t = specFill t := by
  unfold fillWeek specFill
  cases hw : t.week_number with
  | some w =>
    simp only
    rw [← hw]
  | none =>
    cases hd : safeDate t.published_date with
    | some d => simp
    | none =>
      simp only [Option.map_none']
      rw [← hw]

theorem fillWeek_idem (t : Trend) : fillWeek (fillWeek t) = fillWeek t := by
  unfold fillWeek
  cases hw : t.week_number with
  | some w => simp
  | none =>
    cases hd : safeDate t.published_date with
    | some d => simp [hd]
    | none => simp [hd]

/-! Section: Claim theorems -/

/-- C3: for every raw record list, the Normalizer sets `week_number` to the
ISO week of the parsed `published_date` exactly when `week_number` is absent
and the date parses (otherwise leaves it as given), then drops a record if and
only if all of topic, summary, spotify_impact, url, category and
published_date are blank/absent AND relevance_score is absent AND the
(derived) week_number is not a positive integer; the output preserves the
original relative order of the kept records. -/
theorem claim_C3 (records : List Trend) :
    normalizedTrends records =
      (records.map specFill).filter (fun t => !decide (specDroppable t)) ∧
    (normalizedTrends records).Sublist (records.map specFill) := by
  have hmap : records.map fillWeek = records.map specFill :=
    List.map_congr_left fun t _ => fillWeek_eq_specFill t
  have heq : normalizedTrends records =
      (records.map specFill).filter (fun t => !decide (specDroppable t)) := by
    unfold normalizedTrends
    rw [hmap]
    apply List.filter_congr
    intro t _
    by_cases h : specDroppable t
    · have hA : ¬ hasAnySignal t = true := fun hc => (hasAnySignal_iff t).mp hc h
      rw [Bool.not_eq_true] at hA
      simp [hA, h]
    · have hA : hasAnySignal t = true := (hasAnySignal_iff t).mpr h
      simp [hA, h]
  exact ⟨heq, heq ▸ List.filter_sublist _⟩

/-- C4: normalization is idempotent,
`normalize (normalize records) = normalize records`. -/
theorem claim_C4 (records : List Trend) :
    normalizedTrends (normalizedTrends records) = normalizedTrends records := by
  have hfix : ∀ t ∈ (records.map fillWeek).filter hasAnySignal,
      fillWeek t = t := by
    intro t ht
    have ht2 := List.mem_of_mem_filter ht
    obtain ⟨s, _, rfl⟩ := List.mem_map.mp ht2
    exact fillWeek_idem s
  show ((((records.map fillWeek).filter hasAnySignal).map fillWeek).filter
      hasAnySignal) = (records.map fillWeek).filter hasAnySignal
  have hmapid : ((records.map fillWeek).filter hasAnySignal).map fillWeek
      = (records.map fillWeek).filter hasAnySignal := by
    have h := List.map_congr_left (g := fun a => a) hfix
    simpa using h
  rw [hmapid, List.filter_filter]
  apply List.filter_congr
  intro t _
  exact Bool.and_self _

/-- C5: a record with `published_date = "2026-02-10"` and absent
`week_number` is normalized to week number 7: the date parses to the civil
date 2026-02-10, a Tuesday (UTC weekday 2), and the Thursday-shift ISO week
algorithm yields 7. -/
theorem claim_C5 :
    safeDate (some "2026-02-10") = some ⟨2026, 2, 10⟩ ∧
    jsGetUTCDay (epochDay ⟨2026, 2, 10⟩) = 2 ∧
    getISOWeek ⟨2026, 2, 10⟩ = 7 ∧
    normalizedTrends [{ id := 1, published_date := some "2026-02-10" }] =
      [{ id := 1, published_date := some "2026-02-10",
         week_number := some 7 }] := by
  refine ⟨by decide, by decide, by decide, by decide⟩

/-- The bucket key as the amended claim C1 describes it: in week mode,
`week:<week_number>` when the week number is present and nonzero (under
JavaScript truthiness a present negative week number keeps its key), else
`week:unknown`; day and month keys from the parsed `published_date`. -/
def claimSlotKey (t : Trend) (g : GroupBy) : String :=
  match g with
  | .week =>
    match t.week_number with
    | some w => if w ≠ 0 then "week:" ++ toString w else "week:unknown"
    | none => "week:unknown"
  | .day =>
    match safeDate t.published_date with
    | some d => "day:" ++ isoDayKey d
    | none => "day:unknown"
  | .month =>
    match safeDate t.published_date with
    | some d => "month:" ++ monthKey d
    | none => "month:unknown"

/-- The bucket order the amended claim C1 describes, as a relation between
adjacent bucket labels: an unknown (`Ohne…`) bucket never precedes a known
one; among known buckets, week mode orders by descending numeric value of the
label digits, and day/month mode by descending code-point comparison of the
localized labels. -/
def claimBucketOrder (g : GroupBy) (a b : String) : Prop :=
  (strStartsWith a "Ohne" = true → strStartsWith b "Ohne" = true) ∧
  (strStartsWith b "Ohne" = false →
    match g with
    | .week => labelNum b ≤ labelNum a
    | _ => strCmpL b.data a.data ≠ .gt)

theorem groupedRel_implies_claimOrder (g : GroupBy) (a b : String)
    (h : groupedCmp g a b ≤ 0) : claimBucketOrder g a b := by
  have hfst : strStartsWith a "Ohne" = true → strStartsWith b "Ohne" = true := by
    intro hA
    cases hB : strStartsWith b "Ohne" with
    | true => rfl
    | false =>
      rw [groupedCmp_unk_known g hA hB] at h
      omega
  refine ⟨hfst, ?_⟩
  intro hB
  have hbase : baseCmp g a b ≤ 0 := by
    cases hA : strStartsWith a "Ohne" with
    | true =>
      have hcontra := hfst hA
      rw [hcontra] at hB
      cases hB
    | false =>
      rw [groupedCmp_known_known g hA hB] at h
      exact h
  cases g with
  | week =>
    simp only [baseCmp] at hbase
    simp only
    omega
  | day =>
    simp only [baseCmp, ordSign_le_iff] at hbase
    exact hbase
  | month =>
    simp only [baseCmp, ordSign_le_iff] at hbase
    exact hbase

/-- C1 (amended): every record's bucket key is derived per mode (week key
from a present nonzero week number, else `week:unknown`; day/month keys from
the parsed date), and the grouping engine emits its buckets with the unknown
bucket last, week buckets in descending numeric order, and day/month buckets
in descending label comparison order of their German-localized labels. -/
theorem claim_C1 (filtered : List Trend) (g : GroupBy) (t : Trend) :
    slotKeyForTrend t g = claimSlotKey t g ∧
    ((grouped g filtered).map Prod.fst).Pairwise (claimBucketOrder g) := by
  constructor
  · unfold slotKeyForTrend claimSlotKey
    cases g with
    | week =>
      cases t.week_number with
      | some w => simp [ite_not]
      | none => rfl
    | day => rfl
    | month => rfl
  · exact List.Pairwise.map Prod.fst
      (fun a b hr => groupedRel_implies_claimOrder g a.1 b.1 hr)
      (grouped_sorted g filtered)

/-- C1 counterexample to the claim as stated: a present negative week number
(-1) yields the key `week:-1` rather than `week:unknown` although -1 is not
positive, and in month mode the buckets of January and February 2026 come out
in the order Januar before Februar — ascending, not descending, chronological
order — because the engine compares the German month-name labels, not the
month keys. -/
theorem claim_C1_counterexample :
    slotKeyForTrend { id := 1, week_number := some (-1) } GroupBy.week =
      "week:-1" ∧
    "week:-1" ≠ "week:unknown" ∧
    slotKeyForTrend { id := 1, published_date := some "2026-01-15" }
      GroupBy.month = "month:2026-01" ∧
    slotKeyForTrend { id := 2, published_date := some "2026-02-10" }
      GroupBy.month = "month:2026-02" ∧
    (grouped GroupBy.month
        [{ id := 1, published_date := some "2026-01-15" },
         { id := 2, published_date := some "2026-02-10" }]).map Prod.fst =
      ["Januar 2026", "Februar 2026"] := by
  refine ⟨by decide, by decide, by decide, by decide, by decide⟩

/-- C2: the concatenation of all bucket item lists produced by the grouping
engine is a permutation of the filtered list (each record lands in exactly one
bucket, none lost or duplicated), and every bucket's items appear in the same
relative order they had in the filtered list. -/
theorem claim_C2 (filtered : List Trend) (g : GroupBy) :
    ((grouped g filtered).map Prod.snd).flatten.Perm filtered ∧
    ∀ b ∈ grouped g filtered, b.2.Sublist filtered := by
  refine ⟨grouped_flatten_perm g filtered, ?_⟩
  intro b hb
  rw [grouped_entries g filtered b hb]
  exact List.filter_sublist filtered

/-- C2 witness: the grouping round trip at a concrete week-mode input with
two week-5 records and one without a week. -/
theorem claim_C2_witness :
    ((grouped GroupBy.week
        [{ id := 1, topic := some "a", week_number := some 5 },
         { id := 2, topic := some "b", week_number := some 5 },
         { id := 3, topic := some "c" }]).map Prod.snd).flatten.Perm
      [{ id := 1, topic := some "a", week_number := some 5 },
       { id := 2, topic := some "b", week_number := some 5 },
       { id := 3, topic := some "c" }] ∧
    (("KW 5",
       [{ id := 1, topic := some "a", week_number := some 5 },
        { id := 2, topic := some "b", week_number := some 5 }]) :
        String × List Trend).2.Sublist
      [{ id := 1, topic := some "a", week_number := some 5 },
       { id := 2, topic := some "b", week_number := some 5 },
       { id := 3, topic := some "c" }] :=
  ⟨(claim_C2 _ GroupBy.week).1, (claim_C2 _ GroupBy.week).2 _ (by decide)⟩

theorem clamp01_mono_le (m1 m2 : ℚ) (h : m1 ≤ m2) : clamp01 m1 ≤ clamp01 m2 := by
  unfold clamp01
  exact max_le_max le_rfl (min_le_min le_rfl h)

/-- C6: the filter is monotone in the score floor — with all other parameters
fixed, raising `minScore` never increases the number of kept records, and
every kept record clears the clamped floor. -/
theorem claim_C6 (R : List Trend) (p : FilterParams) (m1 m2 : ℚ)
    (h : m1 ≤ m2) :
    (filteredTrends R { p with minScore := m2 }).length ≤
      (filteredTrends R { p with minScore := m1 }).length ∧
    ∀ t ∈ filteredTrends R { p with minScore := m2 },
      clamp01 m2 ≤ t.relevance_score.getD 0 := by
  constructor
  · unfold filteredTrends
    rw [← List.countP_eq_length_filter, ← List.countP_eq_length_filter]
    apply List.countP_mono_left
    intro t _ ht
    unfold keepTrend at ht ⊢
    simp only [Bool.and_eq_true, decide_eq_true_eq] at ht ⊢
    obtain ⟨⟨⟨h1, h2⟩, h3⟩, h4⟩ := ht
    exact ⟨⟨⟨le_trans (clamp01_mono_le m1 m2 h) h1, h2⟩, h3⟩, h4⟩
  · intro t ht
    have hmem := (List.mem_filter.mp ht).2
    unfold keepTrend at hmem
    simp only [Bool.and_eq_true, decide_eq_true_eq] at hmem
    exact hmem.1.1.1

/-- C6 witness: the monotonicity applied at a concrete two-record list with
floors 0.3 and 0.7. -/
theorem claim_C6_witness :
    (filteredTrends
        [{ id := 1, relevance_score := some (mkRat 9 10) },
         { id := 2, relevance_score := some (mkRat 1 2) }]
        { groupBy := GroupBy.week, selectedSlot := "all",
          selectedCategory := "all", minScore := mkRat 7 10,
          searchQuery := "" }).length ≤
      (filteredTrends
        [{ id := 1, relevance_score := some (mkRat 9 10) },
         { id := 2, relevance_score := some (mkRat 1 2) }]
        { groupBy := GroupBy.week, selectedSlot := "all",
          selectedCategory := "all", minScore := mkRat 3 10,
          searchQuery := "" }).length :=
  (claim_C6
    [{ id := 1, relevance_score := some (mkRat 9 10) },
     { id := 2, relevance_score := some (mkRat 1 2) }]
    { groupBy := GroupBy.week, selectedSlot := "all",
      selectedCategory := "all", minScore := 0, searchQuery := "" }
    (mkRat 3 10) (mkRat 7 10) (by decide)).1

/-- C8: export scope week with target week 5 on a normalized set with weeks
4, 5, 5, 6 selects exactly the two week-5 records in original order; in
general the export subset is selected from the full normalized set by
equality of the stringified week number (scope week) or derived month key
(scope month) with the target, scope `all` (and an `all` target) selects
everything, and the selection preserves order. -/
theorem claim_C8 :
    exportData
        [{ id := 1, week_number := some 4 },
         { id := 2, topic := some "a", week_number := some 5 },
         { id := 3, topic := some "b", week_number := some 5 },
         { id := 4, week_number := some 6 }]
        ExportScope.week "all" "5" =
      [{ id := 2, topic := some "a", week_number := some 5 },
       { id := 3, topic := some "b", week_number := some 5 }] ∧
    (∀ (rows : List Trend) (m w : String),
      exportData rows ExportScope.all m w = rows) ∧
    (∀ (rows : List Trend) (m w : String),
      exportData rows ExportScope.week m w =
        if w = "all" then rows
        else rows.filter fun t => decide (jsWeekStr t.week_number = w)) ∧
    (∀ (rows : List Trend) (m w : String),
      exportData rows ExportScope.month m w =
        if m = "all" then rows
        else rows.filter fun t =>
          match safeDate t.published_date with
          | some d => decide (monthKey d = m)
          | none => false) ∧
    (∀ (rows : List Trend) (s : ExportScope) (m w : String),
      (exportData rows s m w).Sublist rows) := by
  refine ⟨by decide, ?_, ?_, ?_, ?_⟩
  · intro rows m w
    simp [exportData]
  · intro rows m w
    by_cases hw : w = "all"
    · simp [exportData, hw]
    · simp [exportData, hw]
  · intro rows m w
    by_cases hm : m = "all"
    · simp [exportData, hm]
    · simp [exportData, hm]
  · intro rows s m w
    simp only [exportData]
    by_cases h1 : s = ExportScope.month ∧ m ≠ "all"
    · rw [if_pos h1]
      by_cases h2 : s = ExportScope.week ∧ w ≠ "all"
      · rw [if_pos h2]
        exact (List.filter_sublist _).trans (List.filter_sublist _)
      · rw [if_neg h2]
        exact List.filter_sublist _
    · rw [if_neg h1]
      by_cases h2 : s = ExportScope.week ∧ w ≠ "all"
      · rw [if_pos h2]
        exact List.filter_sublist _
      · rw [if_neg h2]

/-- C9: each donut band share is the band count divided by
`max 1 total_banded` (times 100); the three shares sum to at most 100, to
exactly 100 when the banded total is positive, and are each 0 when it is 0
(the denominator is never 0, so no NaN can arise). -/
theorem claim_C9 (fl : List Trend) :
    highPct fl = (distHigh fl : ℚ) / max 1 ((donutTotal fl : ℚ)) * 100 ∧
    midPct fl = (distMid fl : ℚ) / max 1 ((donutTotal fl : ℚ)) * 100 ∧
    lowPct fl = (distLow fl : ℚ) / max 1 ((donutTotal fl : ℚ)) * 100 ∧
    highPct fl + midPct fl + lowPct fl ≤ 100 ∧
    (0 < donutTotal fl → highPct fl + midPct fl + lowPct fl = 100) ∧
    (donutTotal fl = 0 →
      highPct fl = 0 ∧ midPct fl = 0 ∧ lowPct fl = 0) := by
  have hsum100 : 0 < donutTotal fl →
      highPct fl + midPct fl + lowPct fl = 100 := by
    intro h
    have hT1 : (1 : ℚ) ≤ (donutTotal fl : ℚ) := by exact_mod_cast h
    have hTpos : (0 : ℚ) < (donutTotal fl : ℚ) := by exact_mod_cast h
    have hTne : (donutTotal fl : ℚ) ≠ 0 := ne_of_gt hTpos
    unfold highPct midPct lowPct donutDenom
    rw [max_eq_right hT1]
    field_simp
    unfold donutTotal
    push_cast
    ring
  have hzero : donutTotal fl = 0 →
      highPct fl = 0 ∧ midPct fl = 0 ∧ lowPct fl = 0 := by
    intro h
    have h3 : distHigh fl = 0 ∧ distMid fl = 0 ∧ distLow fl = 0 := by
      unfold donutTotal at h
      omega
    unfold highPct midPct lowPct
    rw [h3.1, h3.2.1, h3.2.2]
    norm_num
  have hle : highPct fl + midPct fl + lowPct fl ≤ 100 := by
    rcases Nat.eq_zero_or_pos (donutTotal fl) with h | h
    · have h0 := hzero h
      rw [h0.1, h0.2.1, h0.2.2]
      norm_num
    · rw [hsum100 h]
  exact ⟨rfl, rfl, rfl, hle, hsum100, hzero⟩

/-- C9 witness: the donut identities applied at a one-record list (banded
total 1, shares summing to 100) and at the empty list (banded total 0, zero
shares). -/
theorem claim_C9_witness :
    (0 < donutTotal [{ id := 1, relevance_score := some (mkRat 9 10) }] ∧
      highPct [{ id := 1, relevance_score := some (mkRat 9 10) }] +
        midPct [{ id := 1, relevance_score := some (mkRat 9 10) }] +
        lowPct [{ id := 1, relevance_score := some (mkRat 9 10) }] = 100) ∧
    (donutTotal ([] : List Trend) = 0 ∧ highPct ([] : List Trend) = 0) := by
  have h1 := claim_C9 [{ id := 1, relevance_score := some (mkRat 9 10) }]
  have h2 := claim_C9 ([] : List Trend)
  exact ⟨⟨by decide, h1.2.2.2.2.1 (by decide)⟩,
    ⟨by decide, (h2.2.2.2.2.2 (by decide)).1⟩⟩

/-- C10: the Filter Engine never reorders — its output is an order-preserving
subsequence of its input consisting of exactly those records that satisfy the
score floor, category, time-bucket and search predicates. -/
theorem claim_C10 (R : List Trend) (p : FilterParams) :
    (filteredTrends R p).Sublist R ∧
    ∀ t : Trend, t ∈ filteredTrends R p ↔
      t ∈ R ∧
      clamp01 p.minScore ≤ t.relevance_score.getD 0 ∧
      (p.selectedCategory = "all" ∨
        strTrim (t.category.getD "") = p.selectedCategory) ∧
      (p.selectedSlot = "all" ∨
        slotKeyForTrend t p.groupBy = p.selectedSlot) ∧
      (strTrim (toLowerStr p.searchQuery) = "" ∨
        searchHit t (strTrim (toLowerStr p.searchQuery)) = true) := by
  refine ⟨List.filter_sublist R, ?_⟩
  intro t
  unfold filteredTrends
  rw [List.mem_filter]
  unfold keepTrend
  simp only [Bool.and_eq_true, Bool.or_eq_true, decide_eq_true_eq]
  tauto

theorem strTake40_ne_empty (u : String) (h : u ≠ "") : strTake 40 u ≠ "" := by
  intro hc
  apply h
  have hdata : u.data.take 40 = [] := congrArg String.data hc
  have hnil : u.data = [] := by
    cases hd : u.data with
    | nil => rfl
    | cons a as =>
      rw [hd] at hdata
      simp at hdata
  calc u = ⟨u.data⟩ := rfl
    _ = ⟨[]⟩ := by rw [hnil]
    _ = "" := rfl

/-- Cluster key as the amended claim C7 describes it: a blank/absent URL goes
to the single `Unbekannte Quelle` cluster, a parsable URL to its hostname with
a leading `www.` stripped, and a non-blank unparsable URL to the first 40
characters of the trimmed URL (so distinct unparsable URLs form distinct
clusters). -/
def claimDomain (t : Trend) : String :=
  if strTrim (t.url.getD "") = "" then "Unbekannte Quelle"
  else
    match parseURLHostname (strTrim (t.url.getD "")) with
    | some h => stripWWW h
    | none => strTake 40 (strTrim (t.url.getD ""))

/-- C7 (amended): every record's cluster key is its origin domain when the
URL parses (hostname, `www.` stripped), the shared `Unbekannte Quelle` key
when the URL is blank/absent, and the 40-character URL prefix when the URL is
non-blank but unparsable; each cluster holds exactly the bucket records with
that key in bucket order, and clusters are emitted in descending member
count. -/
theorem claim_C7 (items : List Trend) :
    (∀ t : Trend, domainOfTrend t = claimDomain t) ∧
    (∀ c ∈ bySource items,
      c.2 = items.filter fun x => decide (domainOfTrend x = c.1)) ∧
    (bySource items).Pairwise (fun c1 c2 => c2.2.length ≤ c1.2.length) ∧
    ((bySource items).map Prod.snd).flatten.Perm items := by
  refine ⟨?_, bySource_entries items, bySource_sorted items,
    bySource_flatten_perm items⟩
  intro t
  unfold domainOfTrend claimDomain extractDomain
  by_cases hu : strTrim (t.url.getD "") = ""
  · rw [if_pos hu, if_pos hu]
  · rw [if_neg hu, if_neg hu]
    cases hp : parseURLHostname (strTrim (t.url.getD "")) with
    | some h => rfl
    | none =>
      simp only
      rw [if_neg (strTake40_ne_empty _ hu)]

/-- C7 counterexample to the claim as stated: two records whose URLs are
non-blank but unparsable (`new URL` throws on both) land in two different
clusters keyed by their URL prefixes, and no `Unbekannte Quelle` cluster
exists — they do not fall into one single unknown-source cluster. -/
theorem claim_C7_counterexample :
    parseURLHostname "not a url A" = none ∧
    parseURLHostname "not a url B" = none ∧
    (bySource
        [{ id := 1, url := some "not a url A" },
         { id := 2, url := some "not a url B" }]).map Prod.fst =
      ["not a url A", "not a url B"] ∧
    "Unbekannte Quelle" ∉
      (bySource
        [{ id := 1, url := some "not a url A" },
         { id := 2, url := some "not a url B" }]).map Prod.fst := by
  refine ⟨by decide, by decide, by decide, by decide⟩

/-- C7 witness: the amended claim applied at a concrete bucket with two
records of the same parsable domain and one without a URL. -/
theorem claim_C7_witness :
    domainOfTrend { id := 1, url := some "https://www.example.com/a" } =
      claimDomain { id := 1, url := some "https://www.example.com/a" } ∧
    (("example.com",
       [{ id := 1, url := some "https://www.example.com/a" },
        { id := 2, url := some "https://example.com/b" }]) :
        String × List Trend).2 =
      [{ id := 1, url := some "https://www.example.com/a" },
       { id := 2, url := some "https://example.com/b" },
       ({ id := 3 } : Trend)].filter
        (fun x => decide (domainOfTrend x = "example.com")) := by
  have h := claim_C7
    [{ id := 1, url := some "https://www.example.com/a" },
     { id := 2, url := some "https://example.com/b" },
     { id := 3 }]
  exact ⟨h.1 _, h.2.1 _ (by decide)⟩
